import Mathlib

/-!
Verification of the alchemy-web3 dispatch layer (`src/index.ts`).

The development shallowly embeds the pure and stateful logic of the
dispatcher: JavaScript values become an inductive `JsValue`, records become
association lists in insertion order, async operations become their settled
`Except` outcomes, and monkey-patched functions become Lean functions that
take the patched-over original as an explicit argument.
-/

namespace AlchemyWeb3

/-- A JavaScript value as it appears in parameter records and responses. -/
inductive JsValue where
  | null
  | bool (b : Bool)
  | num (n : Int)
  | str (s : String)
  | arr (elems : List JsValue)
deriving Repr

/-- JavaScript `Array.isArray`. -/
def isArray : JsValue → Bool
  | .arr _ => true
  | _ => false

/-- A JavaScript record (plain object) in key insertion order. -/
abbrev JsRecord := List (String × JsValue)

/-- Keys of a record, in insertion order. -/
def keysOf (r : JsRecord) : List String := r.map Prod.fst

/-- JavaScript property assignment `r[k] = v`: overwrite in place when the key
exists, append otherwise. -/
def setKey : JsRecord → String → JsValue → JsRecord
  | [], k, v => [(k, v)]
  | (k', v') :: rest, k, v =>
    if k' = k then (k, v) :: rest else (k', v') :: setKey rest k v

/-- Whether `e` occurs in `l` as the contiguous sublist starting at index `i`. -/
def occursAt (l e : List Char) (i : Nat) : Bool :=
  decide (i + e.length ≤ l.length) && ((l.drop i).take e.length == e)

/-- JavaScript `String.prototype.lastIndexOf` (no fromIndex): the largest
index at which `e` occurs in `l`, and `-1` when it never occurs. -/
def lastIndexOfList (l e : List Char) : Int :=
  match ((List.range (l.length + 1)).filter (occursAt l e)).getLast? with
  | some i => (i : Int)
  | none => -1

/-- `endsWith` from the source: `String#endsWith` for older environments,
written with `lastIndexOf`. -/
def endsWith (s ending : String) : Bool :=
  decide (0 ≤ lastIndexOfList s.data ending.data) &&
    (lastIndexOfList s.data ending.data == (s.data.length : Int) - (ending.data.length : Int))

/-- `toArrayKey` from the source: append `[]` unless already present. -/
def toArrayKey (key : String) : String :=
  if endsWith key "[]" then key else key ++ "[]"

/-- The key an entry receives in `fixArrayQueryParams`. -/
def fixedKeyOf (kv : String × JsValue) : String :=
  if isArray kv.2 then toArrayKey kv.1 else kv.1

/-- One iteration of the `Object.keys(params).forEach` loop in
`fixArrayQueryParams`. -/
def fixArrayStep (result : JsRecord) (kv : String × JsValue) : JsRecord :=
  setKey result (fixedKeyOf kv) kv.2

/-- `fixArrayQueryParams` from the source: rebuild the record, renaming each
array-valued key with `toArrayKey` and keeping every other key. -/
def fixArrayQueryParams (params : JsRecord) : JsRecord :=
  params.foldl fixArrayStep []

/-- Spec-side reading of the key rewrite rule: a key whose value is an array
gets the two-character suffix `[]` appended unless the key already ends in
`[]` (stated with the list-suffix relation), and any other key is kept. -/
def specFixedKey (kv : String × JsValue) : String :=
  if isArray kv.2 then
    (if ['[', ']'] <:+ kv.1.data then kv.1 else kv.1 ++ "[]")
  else kv.1

/-- The concrete example record used in the spec. -/
def exampleRestParams : JsRecord :=
  [("ids", .arr [.num 1, .num 2, .num 3]), ("x", .num 1)]

/-- The colliding record: after the rewrite, the key of the first entry
coincides with the key of the second. -/
def collidingRestParams : JsRecord :=
  [("ids", .arr [.num 1]), ("ids[]", .arr [.num 2])]

/-- JavaScript `String.prototype.includes`: whether `sub` occurs in `s` as a
contiguous substring. -/
def includesSubstr (s sub : String) : Bool :=
  (List.range (s.data.length + 1)).any fun i =>
    (s.data.drop i).take sub.data.length == sub.data

/-- The marker looked for by the warning filter, spelled with an explicit
apostrophe character. -/
def noSubscriptionWarningMarker : String :=
  " doesn" ++ String.singleton (Char.ofNat 39) ++ "t exist. Subscribing anyway."

/-- Check performed by the installed `console.warn` wrapper: the first
argument is a string and contains the marker. -/
def isSuppressedWarning (args : List JsValue) : Bool :=
  match args with
  | JsValue.str s :: _ => includesSubstr s noSubscriptionWarningMarker
  | _ => false

/-- The value held by the mutable `console.warn` handle: the original
handler, or the filtering wrapper installed by
`suppressNoSubscriptionExistsWarning`, which captures the handler it
replaced. -/
inductive WarnHandler where
  | original
  | suppressing (captured : WarnHandler)

/-- Invoking the handler currently held by `console.warn` on one argument
list: the argument lists that end up reaching the original handler. The
wrapper returns early (delivering nothing) when the filter matches, and
otherwise forwards the arguments to the handler it captured. -/
def runWarn : WarnHandler → List JsValue → List (List JsValue)
  | .original, args => [args]
  | .suppressing captured, args =>
    if isSuppressedWarning args then [] else runWarn captured args

/-- Mutable state visible to the subscription patch: the `console.warn`
handle and the log of calls reaching the underlying `eth.subscribe`. -/
structure SubWorld where
  warn : WarnHandler
  subLog : List (String × List JsValue)

/-- `suppressNoSubscriptionExistsWarning` from the source: save the current
`console.warn`, install the filtering wrapper, run `f`, and restore the
saved handler in a `finally` block. The outcome of `f` — a returned value or
a thrown exception, as an `Except` — is passed through unchanged. -/
def suppressNoSubscriptionExistsWarning
    (f : SubWorld → Except String α × SubWorld) (w : SubWorld) :
    Except String α × SubWorld :=
  let oldConsoleWarn := w.warn
  let p := f { w with warn := .suppressing oldConsoleWarn }
  (p.1, { p.2 with warn := oldConsoleWarn })

/-- The patched `eth.subscribe` installed by `patchSubscriptions`, with the
captured original `eth.subscribe` passed explicitly; `rest` is the spread
argument list forwarded unchanged. -/
def patchedSubscribe
    (oldSubscribe : String → List JsValue → SubWorld → Except String α × SubWorld)
    (type_ : String) (rest : List JsValue) (w : SubWorld) :
    Except String α × SubWorld :=
  if type_ == "alchemy_fullPendingTransactions" ||
      type_ == "alchemy_newFullPendingTransactions" then
    suppressNoSubscriptionExistsWarning
      (oldSubscribe "alchemy_newFullPendingTransactions" rest) w
  else if type_ == "alchemy_filteredNewFullPendingTransactions" ||
      type_ == "alchemy_filteredPendingTransactions" ||
      type_ == "alchemy_filteredFullPendingTransactions" then
    suppressNoSubscriptionExistsWarning
      (oldSubscribe "alchemy_filteredNewFullPendingTransactions" rest) w
  else
    oldSubscribe type_ rest w

/-- An underlying subscribe that records each call it receives in the world
and answers with whatever the oracle `ret` says. -/
def loggingSubscribe (ret : String → List JsValue → Except String JsValue)
    (type_ : String) (rest : List JsValue) (w : SubWorld) :
    Except String JsValue × SubWorld :=
  (ret type_ rest, { w with subLog := w.subLog ++ [(type_, rest)] })

/-- Spec-side alias table: the wire-level subscription name used for a
public subscription type (identity outside the table). -/
def specWireName (type_ : String) : String :=
  if type_ = "alchemy_fullPendingTransactions" ∨
      type_ = "alchemy_newFullPendingTransactions" then
    "alchemy_newFullPendingTransactions"
  else if type_ = "alchemy_filteredNewFullPendingTransactions" ∨
      type_ = "alchemy_filteredPendingTransactions" ∨
      type_ = "alchemy_filteredFullPendingTransactions" then
    "alchemy_filteredNewFullPendingTransactions"
  else type_

/-- The pending subscription object hanging off `options.subscription`. -/
structure PendingSubscription where
  subscriptionName : Option String
  otherFields : JsRecord

/-- The `options` object of a web3-core subscription. -/
structure SubscribeOptions where
  subscription : Option PendingSubscription
  otherFields : JsRecord

/-- The subscription instance (`this`) on which `_validateArgs` runs. -/
structure SubscriptionSelf where
  subscriptionMethod : String
  options : SubscribeOptions

/-- The three filtered provider-specific subscription names that skip
validation entirely. -/
def filteredSubscriptionNames : List String :=
  ["alchemy_filteredNewFullPendingTransactions",
    "alchemy_filteredPendingTransactions",
    "alchemy_filteredFullPendingTransactions"]

/-- The two names of the plain full-pending-transaction subscription. -/
def plainSubscriptionNames : List String :=
  ["alchemy_fullPendingTransactions", "alchemy_newFullPendingTransactions"]

/-- The mutation performed by the patched validator for the plain
provider-specific names: when `options.subscription` is present, record the
runtime `subscriptionMethod` in its `subscriptionName` field. -/
def recordSubscriptionName (self : SubscriptionSelf) : SubscriptionSelf :=
  match self.options.subscription with
  | some sub =>
    let sub1 : PendingSubscription :=
      { sub with subscriptionName := some self.subscriptionMethod }
    let options1 : SubscribeOptions :=
      { self.options with subscription := some sub1 }
    { self with options := options1 }
  | none => self

/-- The patched `subscription.prototype._validateArgs`, with the saved
default validator passed explicitly; returns the validation outcome together
with the possibly mutated instance. -/
def patchedValidateArgs
    (oldValidateArgs : SubscriptionSelf → JsValue → Except String Unit)
    (self : SubscriptionSelf) (args : JsValue) :
    Except String Unit × SubscriptionSelf :=
  if filteredSubscriptionNames.contains self.subscriptionMethod then
    (.ok (), self)
  else
    let self1 :=
      if plainSubscriptionNames.contains self.subscriptionMethod then
        recordSubscriptionName self
      else self
    (oldValidateArgs self1 args, self1)

/-- Modelled from the spec: `callWhenDone` of `util/promises` is not under
`src/`. Per the CallbackBridge contract in the spec, once the operation
settles the supplied callback is invoked exactly once, with
`(null, value)` on success and `(error, undefined)` on failure; this
function gives the argument pair of that single invocation. -/
def callWhenDoneArgs (outcome : Except String α) : Option String × Option α :=
  match outcome with
  | .ok v => (none, some v)
  | .error e => (some e, none)

/-- Observable result of one dispatch through `callAlchemyJsonRpcMethod`:
the settled outcome of the returned promise, the number of executions of the
underlying send, and the argument pairs passed to the supplied callback. -/
structure JsonRpcDispatchResult (α : Type) where
  promise : Except String α
  sendCount : Nat
  callbackCalls : List (Option String × Option α)

/-- `callAlchemyJsonRpcMethod` from the source: build one promise that
awaits the send and post-processes its result, hand that same promise to
`callWhenDone` together with the callback when one is supplied (the default
callback is a no-op), and return the promise. `sendOutcome` is the settled
outcome of `jsonRpcSenders.send(method, params)` and `processResponse` may
throw. -/
def callAlchemyJsonRpcMethod (sendOutcome : Except String JsValue)
    (processResponse : JsValue → Except String α)
    (hasCallback : Bool) : JsonRpcDispatchResult α :=
  let promise : Except String α :=
    match sendOutcome with
    | .ok result => processResponse result
    | .error e => .error e
  { promise := promise
    sendCount := 1
    callbackCalls := if hasCallback then [callWhenDoneArgs promise] else [] }

/-- Observable result of one dispatch through `callAlchemyRestEndpoint`. -/
structure RestDispatchResult (α : Type) where
  promise : Except String α
  sends : List (String × JsRecord)
  callbackCalls : List (Option String × Option α)

/-- `callAlchemyRestEndpoint` from the source: encode the parameters with
`fixArrayQueryParams`, build one promise that awaits
`restSender.sendRestPayload(path, fixedParams)` and post-processes its
result, hand that promise to `callWhenDone` with the callback when one is
supplied, and return it. -/
def callAlchemyRestEndpoint
    (sendRestPayload : String → JsRecord → Except String JsValue)
    (processResponse : JsValue → Except String α)
    (path : String) (params : JsRecord) (hasCallback : Bool) :
    RestDispatchResult α :=
  let fixedParams := fixArrayQueryParams params
  let promise : Except String α :=
    match sendRestPayload path fixedParams with
    | .ok result => processResponse result
    | .error e => .error e
  { promise := promise
    sends := [(path, fixedParams)]
    callbackCalls := if hasCallback then [callWhenDoneArgs promise] else [] }

/-- A transport, identified abstractly. -/
structure Provider where
  id : Nat
deriving DecidableEq

/-- A JSON-RPC sender middleware, identified abstractly. -/
structure Middleware where
  id : Nat
deriving DecidableEq

/-- The user-supplied configuration: a field holding `none` is unset
(absent or `undefined`); `writeProvider` may also be set explicitly to
`null`, which is `some none`. -/
structure AlchemyWeb3Config where
  writeProvider : Option (Option Provider) := none
  jsonRpcSenderMiddlewares : Option (List Middleware) := none
  maxRetries : Option Nat := none
  retryInterval : Option Nat := none
  retryJitter : Option Nat := none

/-- The filled-in configuration. -/
structure FullConfig where
  writeProvider : Option Provider
  jsonRpcSenderMiddlewares : List Middleware
  maxRetries : Nat
  retryInterval : Nat
  retryJitter : Nat
deriving DecidableEq

def DEFAULT_MAX_RETRIES : Nat := 3

def DEFAULT_RETRY_INTERVAL : Nat := 1000

def DEFAULT_RETRY_JITTER : Nat := 250

/-- `getWindowProvider` from the source: `window.ethereum` when a window
object exists, otherwise `null`. The environment is modelled as
`window : Option (Option Provider)` — `none` when no window object exists,
`some ethereum` when one does, with `ethereum` its optional injected
transport. -/
def getWindowProvider (window : Option (Option Provider)) : Option Provider :=
  match window with
  | some ethereum => ethereum
  | none => none

/-- `fillInConfigDefaults` from the source: destructure the (possibly
absent) configuration, substituting the default for each field that is
unset. -/
def fillInConfigDefaults (window : Option (Option Provider))
    (config : Option AlchemyWeb3Config) : FullConfig :=
  let cfg := config.getD {}
  { writeProvider := cfg.writeProvider.getD (getWindowProvider window)
    jsonRpcSenderMiddlewares := cfg.jsonRpcSenderMiddlewares.getD []
    maxRetries := cfg.maxRetries.getD DEFAULT_MAX_RETRIES
    retryInterval := cfg.retryInterval.getD DEFAULT_RETRY_INTERVAL
    retryJitter := cfg.retryJitter.getD DEFAULT_RETRY_JITTER }

/-- Outcome of a single transport attempt, classified as the retry policy
of the spec classifies failures. -/
inductive AttemptOutcome where
  | success (value : JsValue)
  | transient (e : String)
  | permanent (e : String)

/-- Whether an attempt outcome is a Transient failure. -/
def isTransient : AttemptOutcome → Bool
  | .transient _ => true
  | _ => false

/-- Modelled from the spec: the retrying JSON-RPC sender lives in
`web3-adapter/alchemyContext` and `util/jsonRpc`, which are not under
`src/`. Per the spec, Transient failures are retried up to `maxRetries`
times, Permanent failures and successes return immediately, and after
`maxRetries` is exhausted the last observed error is returned. The loop is
driven by the remaining retry budget and the index of the current attempt,
and returns the settled outcome with the number of attempts issued. -/
def retryLoop (transport : Nat → AttemptOutcome) :
    Nat → Nat → Except String JsValue × Nat
  | 0, attempt =>
    match transport attempt with
    | .success v => (.ok v, attempt + 1)
    | .permanent e => (.error e, attempt + 1)
    | .transient e => (.error e, attempt + 1)
  | r + 1, attempt =>
    match transport attempt with
    | .success v => (.ok v, attempt + 1)
    | .permanent e => (.error e, attempt + 1)
    | .transient _ => retryLoop transport r (attempt + 1)

/-- Modelled from the spec: one JSON-RPC send with a retry budget of
`maxRetries`, starting at attempt 0. -/
def sendWithRetries (transport : Nat → AttemptOutcome) (maxRetries : Nat) :
    Except String JsValue × Nat :=
  retryLoop transport maxRetries 0

/-- Transport for the retry witness: two transient failures, then success. -/
def exTransportRetry : Nat → AttemptOutcome := fun k =>
  if k < 2 then .transient "connection reset" else .success (.num 7)

/-- Transport for the permanent-failure witness: one transient failure, then
a permanent application error. -/
def exTransportPermanent : Nat → AttemptOutcome := fun k =>
  if k = 0 then .transient "connection reset" else .permanent "bad request"

/-- Provider state of one client: the read provider bound at construction
and the swappable write provider. -/
structure ClientProviders where
  readProvider : Provider
  writeProvider : Option Provider
deriving DecidableEq

/-- The message of the error thrown by the patched `setProvider`. -/
def setProviderErrorMessage : String :=
  "setProvider is not supported in Alchemy Web3. To change the provider used for writes, use setWriteProvider() instead."

/-- The `setProvider` assigned onto the client in `createAlchemyWeb3`: it
ignores its argument and throws. -/
def patchedSetProvider (st : ClientProviders) (_provider : JsValue) :
    Except String Unit × ClientProviders :=
  (.error setProviderErrorMessage, st)

/-- One entry of a token-balances response: its `tokenBalance` field (null
or absent is `none`, a hex string otherwise) plus every other field. -/
structure TokenBalance where
  tokenBalance : Option String
  otherFields : JsRecord

/-- A token-balances response: its entries plus every other field. -/
structure TokenBalancesResponse where
  tokenBalances : List TokenBalance
  otherFields : JsRecord

/-- The per-entry body of the `map` in `processTokenBalanceResponse`:
decode a non-null `tokenBalance`, spreading the rest of the entry; return a
null entry unchanged. -/
def fixTokenBalance (decodeUint256 : String → String)
    (balance : TokenBalance) : TokenBalance :=
  match balance.tokenBalance with
  | some tb => { balance with tokenBalance := some (decodeUint256 tb) }
  | none => balance

/-- `processTokenBalanceResponse` from the source, with the fixed-width
integer decoder (`ABIDecoder.decodeParameter("uint256", ·)`, an external
collaborator) passed explicitly: decode each non-null `tokenBalance`,
spreading the rest of the entry, and spread the rest of the response. -/
def processTokenBalanceResponse (decodeUint256 : String → String)
    (rawResponse : TokenBalancesResponse) : TokenBalancesResponse :=
  let fixedTokenBalances :=
    rawResponse.tokenBalances.map (fixTokenBalance decodeUint256)
  { rawResponse with tokenBalances := fixedTokenBalances }

/-- Subscription instance used by the validator witness: the plain public
name with a pending subscription object present. -/
def exSubscriptionSelf : SubscriptionSelf :=
  ⟨"alchemy_fullPendingTransactions", ⟨some ⟨none, []⟩, []⟩⟩

/-- Expected mutated instance for the validator witness. -/
def exSubscriptionSelfNamed : SubscriptionSelf :=
  ⟨"alchemy_fullPendingTransactions",
    ⟨some ⟨some "alchemy_fullPendingTransactions", []⟩, []⟩⟩

/-- Decoder used by the token-balance witness. -/
def exDecode : String → String := fun s => s ++ ":decoded"

/-- Concrete response used by the token-balance witness. -/
def exTokenResponse : TokenBalancesResponse :=
  { tokenBalances :=
      [{ tokenBalance := some "0x0a", otherFields := [("contractAddress", .str "0xc")] },
        { tokenBalance := none, otherFields := [("error", .str "oops")] }]
    otherFields := [("address", .str "0xabc")] }

theorem getLast?_filter_range (p : Nat → Bool) (n m : Nat) (hmn : m < n)
    (hpm : p m = true) (hbound : ∀ i, p i = true → i ≤ m) :
    ((List.range n).filter p).getLast? = some m := by
  obtain ⟨r, rfl⟩ : ∃ r, n = (m + 1) + r := ⟨n - (m + 1), by omega⟩
  rw [List.range_add, List.filter_append]
  have h2 : (List.map (fun x => m + 1 + x) (List.range r)).filter p = [] := by
    refine List.filter_eq_nil_iff.mpr ?_
    intro a ha hpa
    obtain ⟨x, -, rfl⟩ := List.mem_map.mp ha
    have := hbound _ hpa
    omega
  rw [h2, List.append_nil, List.range_succ, List.filter_append]
  have h3 : List.filter p [m] = [m] := by simp [hpm]
  rw [h3, List.getLast?_concat]

theorem lastIndexOfList_append (l e : List Char) :
    lastIndexOfList (l ++ e) e = (l.length : Int) := by
  unfold lastIndexOfList
  rw [getLast?_filter_range (occursAt (l ++ e) e) _ l.length
    (by simp [List.length_append]; omega)
    (by simp [occursAt, List.length_append, List.drop_left, List.take_length])
    (by
      intro i hi
      simp only [occursAt, Bool.and_eq_true, decide_eq_true_eq,
        List.length_append] at hi
      omega)]

theorem endsWith_append_self (s e : String) : endsWith (s ++ e) e = true := by
  unfold endsWith
  rw [String.data_append, lastIndexOfList_append]
  simp only [Bool.and_eq_true, decide_eq_true_eq, beq_iff_eq, List.length_append]
  omega

/-- The hand-rolled `endsWith` applied to the marker `[]` agrees with the
list-suffix relation. -/
theorem endsWith_brackets_iff (s : String) :
    endsWith s "[]" = true ↔ ['[', ']'] <:+ s.data := by
  constructor
  · intro h
    unfold endsWith at h
    simp only [Bool.and_eq_true, decide_eq_true_eq, beq_iff_eq] at h
    obtain ⟨hpos, heq⟩ := h
    unfold lastIndexOfList at hpos heq
    rcases hopt : ((List.range (s.data.length + 1)).filter
        (occursAt s.data ("[]".data))).getLast? with - | i
    · rw [hopt] at hpos
      simp at hpos
    · rw [hopt] at heq
      have hmem : i ∈ (List.range (s.data.length + 1)).filter
          (occursAt s.data ("[]".data)) :=
        List.mem_of_mem_getLast? (by rw [hopt]; rfl)
      have hocc : occursAt s.data ("[]".data) i = true :=
        (List.mem_filter.mp hmem).2
      simp only [occursAt, Bool.and_eq_true, decide_eq_true_eq, beq_iff_eq] at hocc
      obtain ⟨hlen, hdrop⟩ := hocc
      have hlen2 : i + 2 ≤ s.data.length := by simpa using hlen
      have hdrop2 : List.take 2 (List.drop i s.data) = ['[', ']'] := by
        simpa using hdrop
      have hieq : (i : Int) = (s.data.length : Int) - 2 := by simpa using heq
      refine ⟨s.data.take i, ?_⟩
      have hdl : (s.data.drop i).length = 2 := by
        rw [List.length_drop]; omega
      have hdropeq : s.data.drop i = ['[', ']'] := by
        rw [← hdrop2, List.take_of_length_le (by omega)]
      rw [← hdropeq, List.take_append_drop]
  · rintro ⟨t, ht⟩
    have hs : s = (⟨t⟩ : String) ++ "[]" := by
      apply String.ext
      rw [String.data_append, ← ht]
    rw [hs]
    exact endsWith_append_self _ _

/-- The key rewrite of the source agrees with its spec-side reading. -/
theorem fixedKeyOf_eq_spec (kv : String × JsValue) : fixedKeyOf kv = specFixedKey kv := by
  unfold fixedKeyOf specFixedKey toArrayKey
  by_cases ha : isArray kv.2 = true
  · simp only [ha, if_true]
    by_cases hb : ['[', ']'] <:+ kv.1.data
    · rw [if_pos ((endsWith_brackets_iff kv.1).mpr hb), if_pos hb]
    · rw [if_neg (fun hc => hb ((endsWith_brackets_iff kv.1).mp hc)), if_neg hb]
  · simp [ha]

theorem setKey_nil (k : String) (v : JsValue) : setKey [] k v = [(k, v)] := rfl

theorem setKey_cons (k' : String) (v' : JsValue) (rest : JsRecord)
    (k : String) (v : JsValue) :
    setKey ((k', v') :: rest) k v =
      if k' = k then (k, v) :: rest else (k', v') :: setKey rest k v := rfl

theorem keysOf_nil : keysOf [] = [] := rfl

theorem keysOf_cons (kv : String × JsValue) (r : JsRecord) :
    keysOf (kv :: r) = kv.1 :: keysOf r := rfl

theorem keysOf_append (r s : JsRecord) :
    keysOf (r ++ s) = keysOf r ++ keysOf s := List.map_append _ _ _

theorem setKey_not_mem (r : JsRecord) (k : String) (v : JsValue)
    (h : k ∉ keysOf r) : setKey r k v = r ++ [(k, v)] := by
  induction r with
  | nil => rfl
  | cons kv rest ih =>
    obtain ⟨k', v'⟩ := kv
    rw [keysOf_cons, List.mem_cons] at h
    push_neg at h
    rw [setKey_cons, if_neg (fun hc => h.1 hc.symm), List.cons_append,
      ih h.2]

theorem mem_keys_setKey (r : JsRecord) (k : String) (v : JsValue) (k0 : String) :
    k0 ∈ keysOf (setKey r k v) ↔ k0 = k ∨ k0 ∈ keysOf r := by
  induction r with
  | nil => simp [setKey_nil, keysOf_cons, keysOf_nil]
  | cons kv rest ih =>
    obtain ⟨k', v'⟩ := kv
    rw [setKey_cons]
    by_cases hk : k' = k
    · rw [if_pos hk]
      subst hk
      simp only [keysOf_cons, List.mem_cons]
      tauto
    · rw [if_neg hk]
      simp only [keysOf_cons, List.mem_cons, ih]
      tauto

theorem nodup_keys_setKey (r : JsRecord) (k : String) (v : JsValue)
    (h : (keysOf r).Nodup) : (keysOf (setKey r k v)).Nodup := by
  induction r with
  | nil => simp [setKey_nil, keysOf_cons, keysOf_nil]
  | cons kv rest ih =>
    obtain ⟨k', v'⟩ := kv
    rw [keysOf_cons, List.nodup_cons] at h
    rw [setKey_cons]
    by_cases hk : k' = k
    · rw [if_pos hk]
      subst hk
      rw [keysOf_cons, List.nodup_cons]
      exact h
    · rw [if_neg hk, keysOf_cons, List.nodup_cons]
      refine ⟨?_, ih h.2⟩
      intro hmem
      rcases (mem_keys_setKey rest k v k').mp hmem with h1 | h1
      · exact hk h1
      · exact h.1 h1

theorem mem_setKey (r : JsRecord) (k : String) (v : JsValue)
    (kv : String × JsValue) (h : kv ∈ setKey r k v) : kv = (k, v) ∨ kv ∈ r := by
  induction r with
  | nil => simpa [setKey_nil] using h
  | cons kv' rest ih =>
    obtain ⟨k', v'⟩ := kv'
    rw [setKey_cons] at h
    by_cases hk : k' = k
    · rw [if_pos hk] at h
      rcases List.mem_cons.mp h with h | h
      · exact .inl h
      · exact .inr (List.mem_cons_of_mem _ h)
    · rw [if_neg hk] at h
      rcases List.mem_cons.mp h with h | h
      · exact .inr (h ▸ List.mem_cons_self _ _)
      · rcases ih h with h1 | h1
        · exact .inl h1
        · exact .inr (List.mem_cons_of_mem _ h1)

/-- Folding the loop body over entries whose rewritten keys are fresh and
pairwise distinct just appends the rewritten entries. -/
theorem foldl_fixArrayStep_eq (p : JsRecord) :
    ∀ acc : JsRecord, (∀ kv ∈ p, fixedKeyOf kv ∉ keysOf acc) →
      (p.map fixedKeyOf).Nodup →
      p.foldl fixArrayStep acc = acc ++ p.map (fun kv => (fixedKeyOf kv, kv.2)) := by
  induction p with
  | nil => intro acc _ _; simp
  | cons kv rest ih =>
    intro acc hfresh hnodup
    simp only [List.map_cons, List.nodup_cons] at hnodup
    have hstep : fixArrayStep acc kv = acc ++ [(fixedKeyOf kv, kv.2)] :=
      setKey_not_mem _ _ _ (hfresh kv (by simp))
    simp only [List.foldl_cons, hstep]
    rw [ih (acc ++ [(fixedKeyOf kv, kv.2)]) ?_ hnodup.2]
    · simp
    · intro kv' hkv'
      simp only [keysOf, List.map_append, List.map_cons, List.map_nil,
        List.mem_append, List.mem_cons, List.not_mem_nil, or_false]
      push_neg
      refine ⟨hfresh kv' (by simp [hkv']), ?_⟩
      intro hc
      exact hnodup.1 (hc ▸ List.mem_map_of_mem fixedKeyOf hkv')

/-- The output of `fixArrayQueryParams` has pairwise-distinct keys, and each
of its array-valued entries has a key ending in `[]`. -/
theorem fixArray_foldl_invariant (p : JsRecord) :
    ∀ acc : JsRecord,
      (keysOf acc).Nodup →
      (∀ kv ∈ acc, isArray kv.2 = true → endsWith kv.1 "[]" = true) →
      (keysOf (p.foldl fixArrayStep acc)).Nodup ∧
        ∀ kv ∈ p.foldl fixArrayStep acc, isArray kv.2 = true →
          endsWith kv.1 "[]" = true := by
  induction p with
  | nil => intro acc h1 h2; exact ⟨h1, h2⟩
  | cons kv rest ih =>
    intro acc h1 h2
    simp only [List.foldl_cons]
    refine ih (fixArrayStep acc kv) (nodup_keys_setKey _ _ _ h1) ?_
    intro kv' hkv' harr
    rcases mem_setKey _ _ _ _ hkv' with h | h
    · subst h
      unfold fixedKeyOf
      simp only at harr
      rw [if_pos harr]
      unfold toArrayKey
      by_cases hb : endsWith kv.1 "[]" = true
      · rwa [if_pos hb]
      · rw [if_neg hb]; exact endsWith_append_self _ _
    · exact h2 kv' h harr

/-- Folding from the empty record under distinct rewritten keys is the
entrywise key rewrite. -/
theorem fixArrayQueryParams_eq_map (p : JsRecord)
    (h : (p.map fixedKeyOf).Nodup) :
    fixArrayQueryParams p = p.map fun kv => (fixedKeyOf kv, kv.2) := by
  unfold fixArrayQueryParams
  rw [foldl_fixArrayStep_eq p []
    (by intro kv _ hc; simp [keysOf_nil] at hc) h]
  simp

/-- The output of the encoding step has pairwise-distinct keys and every
array-valued output entry carries the `[]` marker. -/
theorem fixArrayQueryParams_fixedPoint_shape (p : JsRecord) :
    (keysOf (fixArrayQueryParams p)).Nodup ∧
      ∀ kv ∈ fixArrayQueryParams p, isArray kv.2 = true →
        endsWith kv.1 "[]" = true :=
  fixArray_foldl_invariant p [] (by simp [keysOf_nil])
    (fun kv h => absurd h (List.not_mem_nil kv))

/-- C1, amended: on every parameter record in which the rewritten keys are
pairwise distinct (no key collides with another key once the `[]` marker is
appended), `fixArrayQueryParams` renames each key whose value is an array by
appending the two-character suffix `[]` unless the key already ends in `[]`,
keeps every key whose value is not an array, and passes every value through
unmodified, preserving entry order. Without the distinctness proviso the
later entry overwrites the earlier one (see the counterexample). -/
theorem fixArrayQueryParams_renames_array_keys (p : JsRecord)
    (h : (p.map specFixedKey).Nodup) :
    fixArrayQueryParams p = p.map fun kv => (specFixedKey kv, kv.2) := by
  have hmapeq : p.map fixedKeyOf = p.map specFixedKey :=
    List.map_congr_left fun kv _ => fixedKeyOf_eq_spec kv
  rw [fixArrayQueryParams_eq_map p (by rw [hmapeq]; exact h)]
  exact List.map_congr_left fun kv _ => by rw [fixedKeyOf_eq_spec]

/-- C1 witness: at the concrete record `{ids: [1,2,3], x: 1}` of the spec the
rewritten keys are distinct, and the amended theorem yields exactly the
encoding `{ "ids[]": [1,2,3], "x": 1 }` claimed by the spec. -/
theorem fixArrayQueryParams_renames_array_keys_witness :
    (exampleRestParams.map specFixedKey).Nodup ∧
      fixArrayQueryParams exampleRestParams =
        [("ids[]", JsValue.arr [JsValue.num 1, JsValue.num 2, JsValue.num 3]),
          ("x", JsValue.num 1)] :=
  ⟨by decide,
    by rw [fixArrayQueryParams_renames_array_keys exampleRestParams (by decide)]; rfl⟩

/-- C1 counterexample: on the record `{ids: [1], "ids[]": [2]}` the claim as
stated fails: the renamed key of the first entry collides with the second
key, the two-entry record encodes to a one-entry record, and the value `[1]`
of the key `ids` is not passed through. -/
theorem fixArrayQueryParams_collision_counterexample :
    collidingRestParams.length = 2 ∧
      fixArrayQueryParams collidingRestParams =
        [("ids[]", JsValue.arr [JsValue.num 2])] ∧
      (fixArrayQueryParams collidingRestParams).length = 1 :=
  ⟨rfl, rfl, rfl⟩

/-- C8: the REST parameter encoding is idempotent on every parameter record,
because the `[]` suffix is appended only when the key does not already end
in `[]`. -/
theorem fixArrayQueryParams_idempotent (p : JsRecord) :
    fixArrayQueryParams (fixArrayQueryParams p) = fixArrayQueryParams p := by
  obtain ⟨hnd, hends⟩ := fixArrayQueryParams_fixedPoint_shape p
  have hfix : ∀ kv ∈ fixArrayQueryParams p, fixedKeyOf kv = kv.1 := by
    intro kv hkv
    unfold fixedKeyOf
    by_cases ha : isArray kv.2 = true
    · rw [if_pos ha]
      unfold toArrayKey
      rw [if_pos (hends kv hkv ha)]
    · rw [if_neg ha]
  rw [fixArrayQueryParams_eq_map (fixArrayQueryParams p)
    (by
      have hmap : (fixArrayQueryParams p).map fixedKeyOf =
          keysOf (fixArrayQueryParams p) :=
        List.map_congr_left fun kv h => hfix kv h
      rw [hmap]; exact hnd)]
  calc (fixArrayQueryParams p).map (fun kv => (fixedKeyOf kv, kv.2))
      = (fixArrayQueryParams p).map id :=
        List.map_congr_left fun kv h => by rw [hfix kv h]; rfl
    _ = fixArrayQueryParams p := List.map_id _

/-- C2: the patched `eth.subscribe` resolves the public type through the
alias table and issues exactly one underlying subscribe call — with wire
name `alchemy_newFullPendingTransactions` for both public aliases of the
full-pending-transaction feed, with wire name
`alchemy_filteredNewFullPendingTransactions` for the three filtered
aliases, and with the type forwarded unchanged otherwise — passing the
remaining arguments through unmodified in every case, and returning what
the underlying subscribe returned for that wire name. -/
theorem patchedSubscribe_single_aliased_call
    (ret : String → List JsValue → Except String JsValue)
    (type_ : String) (rest : List JsValue) (w : SubWorld) :
    (patchedSubscribe (loggingSubscribe ret) type_ rest w).2.subLog =
        w.subLog ++ [(specWireName type_, rest)] ∧
      (patchedSubscribe (loggingSubscribe ret) type_ rest w).1 =
        ret (specWireName type_) rest := by
  by_cases h1 : type_ = "alchemy_fullPendingTransactions" <;>
    by_cases h2 : type_ = "alchemy_newFullPendingTransactions" <;>
    by_cases h3 : type_ = "alchemy_filteredNewFullPendingTransactions" <;>
    by_cases h4 : type_ = "alchemy_filteredPendingTransactions" <;>
    by_cases h5 : type_ = "alchemy_filteredFullPendingTransactions" <;>
    simp [patchedSubscribe, specWireName, suppressNoSubscriptionExistsWarning,
      loggingSubscribe, h1, h2, h3, h4, h5]

/-- C3: `suppressNoSubscriptionExistsWarning f` leaves `console.warn` as it
found it whatever `f` does (normal return and thrown exception alike),
passes the outcome of `f` through unchanged together with any other state
`f` produced, and during the call the installed handler drops an invocation
exactly when its first argument is a string containing
`noSubscriptionWarningMarker` (the no-subscription diagnostic fragment,
apostrophe included), forwarding every other invocation to the handler it
captured (so to the original `console.warn`). -/
theorem suppressNoSubscriptionExistsWarning_scoped {α : Type}
    (f : SubWorld → Except String α × SubWorld) (w : SubWorld)
    (args : List JsValue) (h : WarnHandler) :
    (suppressNoSubscriptionExistsWarning f w).2.warn = w.warn ∧
      (suppressNoSubscriptionExistsWarning f w).1 =
        (f { w with warn := .suppressing w.warn }).1 ∧
      (suppressNoSubscriptionExistsWarning f w).2.subLog =
        (f { w with warn := .suppressing w.warn }).2.subLog ∧
      runWarn (.suppressing h) args =
        (if isSuppressedWarning args then [] else runWarn h args) ∧
      runWarn .original args = [args] ∧
      (∀ s rest2, isSuppressedWarning (JsValue.str s :: rest2) =
        includesSubstr s noSubscriptionWarningMarker) :=
  ⟨rfl, rfl, rfl, rfl, rfl, fun _ _ => rfl⟩

/-- C4: the patched `_validateArgs` splits on the runtime subscription
method name: the three filtered provider-specific names skip validation
entirely and mutate nothing; the two plain full-pending-transaction names
first record the method name into `options.subscription.subscriptionName`
(when `options.subscription` is present) and then invoke the saved default
validator on the arguments; every other name invokes the saved default
validator unchanged. -/
theorem patchedValidateArgs_case_split
    (oldValidateArgs : SubscriptionSelf → JsValue → Except String Unit)
    (self : SubscriptionSelf) (args : JsValue) :
    (self.subscriptionMethod ∈ filteredSubscriptionNames →
      patchedValidateArgs oldValidateArgs self args = (.ok (), self)) ∧
      (self.subscriptionMethod ∈ plainSubscriptionNames →
        patchedValidateArgs oldValidateArgs self args =
          (oldValidateArgs (recordSubscriptionName self) args,
            recordSubscriptionName self)) ∧
      (self.subscriptionMethod ∉ filteredSubscriptionNames →
        self.subscriptionMethod ∉ plainSubscriptionNames →
        patchedValidateArgs oldValidateArgs self args =
          (oldValidateArgs self args, self)) ∧
      (∀ sub, self.options.subscription = some sub →
        (recordSubscriptionName self).options.subscription =
            some ⟨some self.subscriptionMethod, sub.otherFields⟩ ∧
          (recordSubscriptionName self).options.otherFields =
            self.options.otherFields ∧
          (recordSubscriptionName self).subscriptionMethod =
            self.subscriptionMethod) ∧
      (self.options.subscription = none → recordSubscriptionName self = self) := by
  refine ⟨?_, ?_, ?_, ?_, ?_⟩
  · intro hf
    unfold patchedValidateArgs
    rw [if_pos (List.elem_iff.mpr hf)]
  · intro hp
    have hnf : filteredSubscriptionNames.contains self.subscriptionMethod = false := by
      simp only [plainSubscriptionNames, List.mem_cons, List.not_mem_nil,
        or_false] at hp
      rcases hp with hp | hp <;> rw [hp] <;> decide
    unfold patchedValidateArgs
    rw [if_neg (fun hc => by rw [hnf] at hc; exact Bool.noConfusion hc),
      if_pos (List.elem_iff.mpr hp)]
  · intro hnf hnp
    unfold patchedValidateArgs
    rw [if_neg (fun hc => hnf (List.elem_iff.mp hc)),
      if_neg (fun hc => hnp (List.elem_iff.mp hc))]
  · intro sub hsub
    unfold recordSubscriptionName
    rw [hsub]
    exact ⟨rfl, rfl, rfl⟩
  · intro hnone
    unfold recordSubscriptionName
    rw [hnone]

/-- C4 witness: a plain-named subscription with a pending subscription
object present records its name and then defers to the default validator. -/
theorem patchedValidateArgs_case_split_witness :
    patchedValidateArgs (fun _ _ => .ok ()) exSubscriptionSelf JsValue.null =
      (.ok (), exSubscriptionSelfNamed) := by
  rw [(patchedValidateArgs_case_split (fun _ _ => .ok ()) exSubscriptionSelf
    JsValue.null).2.1 (by decide)]
  rfl

/-- C5: for both dispatchers, a supplied callback is recorded as invoked
exactly once with the argument pair determined by the settled outcome of the
returned promise — `(null, value)` on fulfilment and `(error, undefined)`
on rejection; without a callback no invocation happens; the underlying
operation executes exactly once either way, and the promise outcome does
not depend on whether a callback was supplied. -/
theorem callback_bridge_exactly_once {α : Type}
    (sendOutcome : Except String JsValue)
    (processResponse : JsValue → Except String α)
    (restSend : String → JsRecord → Except String JsValue)
    (path : String) (params : JsRecord) :
    (callAlchemyJsonRpcMethod sendOutcome processResponse true).callbackCalls =
        [callWhenDoneArgs
          (callAlchemyJsonRpcMethod sendOutcome processResponse true).promise] ∧
      (callAlchemyJsonRpcMethod sendOutcome processResponse false).callbackCalls =
        [] ∧
      (∀ b, (callAlchemyJsonRpcMethod sendOutcome processResponse b).sendCount = 1) ∧
      (callAlchemyJsonRpcMethod sendOutcome processResponse true).promise =
        (callAlchemyJsonRpcMethod sendOutcome processResponse false).promise ∧
      (∀ v : α, callWhenDoneArgs (Except.ok v) = (none, some v)) ∧
      (∀ e, callWhenDoneArgs (Except.error e : Except String α) = (some e, none)) ∧
      (callAlchemyRestEndpoint restSend processResponse path params
          true).callbackCalls =
        [callWhenDoneArgs
          (callAlchemyRestEndpoint restSend processResponse path params true).promise] ∧
      (callAlchemyRestEndpoint restSend processResponse path params
          false).callbackCalls = [] ∧
      (∀ b, (callAlchemyRestEndpoint restSend processResponse path params b).sends =
        [(path, fixArrayQueryParams params)]) ∧
      (callAlchemyRestEndpoint restSend processResponse path params true).promise =
        (callAlchemyRestEndpoint restSend processResponse path params false).promise :=
  ⟨rfl, rfl, fun _ => rfl, rfl, fun _ => rfl, fun _ => rfl, rfl, rfl, fun _ => rfl, rfl⟩

/-- C6: `fillInConfigDefaults` fills every unset field with its default —
`maxRetries = 3`, `retryInterval = 1000`, `retryJitter = 250`, an empty
middleware sequence, and for `writeProvider` the injected transport
`window.ethereum` when a window object exists and `null` otherwise — and
passes every field the caller did set through unchanged. -/
theorem fillInConfigDefaults_fills_defaults
    (window : Option (Option Provider)) (c : AlchemyWeb3Config) :
    fillInConfigDefaults window none =
        { writeProvider := getWindowProvider window
          jsonRpcSenderMiddlewares := []
          maxRetries := 3
          retryInterval := 1000
          retryJitter := 250 } ∧
      (∀ ethereum, getWindowProvider (some ethereum) = ethereum) ∧
      getWindowProvider none = none ∧
      (fillInConfigDefaults window (some c)).writeProvider =
        c.writeProvider.getD (getWindowProvider window) ∧
      (fillInConfigDefaults window (some c)).jsonRpcSenderMiddlewares =
        c.jsonRpcSenderMiddlewares.getD [] ∧
      (fillInConfigDefaults window (some c)).maxRetries = c.maxRetries.getD 3 ∧
      (fillInConfigDefaults window (some c)).retryInterval =
        c.retryInterval.getD 1000 ∧
      (fillInConfigDefaults window (some c)).retryJitter = c.retryJitter.getD 250 ∧
      (∀ wp mws mr ri rj,
        fillInConfigDefaults window
            (some { writeProvider := some wp, jsonRpcSenderMiddlewares := some mws
                    maxRetries := some mr, retryInterval := some ri
                    retryJitter := some rj }) =
          { writeProvider := wp, jsonRpcSenderMiddlewares := mws
            maxRetries := mr, retryInterval := ri, retryJitter := rj }) :=
  ⟨rfl, fun _ => rfl, rfl, rfl, rfl, rfl, rfl, rfl, fun _ _ _ _ _ => rfl⟩

/-- Skipping a run of transient attempts spends the matching part of the
retry budget. -/
theorem retryLoop_skip_transients (transport : Nat → AttemptOutcome) (m : Nat) :
    ∀ remaining attempt, m ≤ remaining →
      (∀ k, k < m → isTransient (transport (attempt + k)) = true) →
      retryLoop transport remaining attempt =
        retryLoop transport (remaining - m) (attempt + m) := by
  induction m with
  | zero => intro remaining attempt _ _; simp
  | succ n ih =>
    intro remaining attempt hle htr
    have h0 : isTransient (transport attempt) = true := by
      simpa using htr 0 (Nat.succ_pos n)
    obtain ⟨e, he⟩ : ∃ e, transport attempt = .transient e := by
      cases hx : transport attempt with
      | success v => rw [hx] at h0; simp [isTransient] at h0
      | permanent e => rw [hx] at h0; simp [isTransient] at h0
      | transient e => exact ⟨e, rfl⟩
    obtain ⟨r, rfl⟩ : ∃ r, remaining = r + 1 := ⟨remaining - 1, by omega⟩
    rw [show retryLoop transport (r + 1) attempt =
        retryLoop transport r (attempt + 1) by simp [retryLoop, he]]
    rw [ih r (attempt + 1) (by omega) (fun k hk => by
      have := htr (k + 1) (by omega)
      simpa [Nat.add_assoc, Nat.add_comm 1 k] using this)]
    congr 1
    · omega
    · omega

/-- C7: with `maxRetries = N`, a transport that yields `N` consecutive
Transient failures followed by a success makes the send resolve with the
success value after exactly `N + 1` attempts; and a Permanent failure on
any attempt (after only Transient failures) propagates immediately, with no
attempt issued beyond it. -/
theorem sendWithRetries_policy (transport : Nat → AttemptOutcome) (N : Nat) :
    (∀ v, (∀ k, k < N → isTransient (transport k) = true) →
      transport N = .success v →
      sendWithRetries transport N = (.ok v, N + 1)) ∧
    (∀ j e, j ≤ N → (∀ k, k < j → isTransient (transport k) = true) →
      transport j = .permanent e →
      sendWithRetries transport N = (.error e, j + 1)) := by
  constructor
  · intro v htr hsucc
    unfold sendWithRetries
    rw [retryLoop_skip_transients transport N N 0 (le_refl N)
      (fun k hk => by simpa using htr k hk)]
    simp [retryLoop, hsucc]
  · intro j e hj htr hperm
    unfold sendWithRetries
    rw [retryLoop_skip_transients transport j N 0 hj
      (fun k hk => by simpa using htr k hk)]
    rcases hnj : N - j with - | r <;> simp [retryLoop, hperm]

/-- C7 witness: with `maxRetries = 2`, two transient failures then a success
resolve to the success value in exactly three attempts, and a permanent
failure on the second attempt stops after exactly two attempts. -/
theorem sendWithRetries_policy_witness :
    sendWithRetries exTransportRetry 2 = (.ok (.num 7), 3) ∧
      sendWithRetries exTransportPermanent 2 = (.error "bad request", 2) :=
  ⟨(sendWithRetries_policy exTransportRetry 2).1 (.num 7) (by decide) rfl,
    (sendWithRetries_policy exTransportPermanent 2).2 1 "bad request"
      (by decide) (by decide) rfl⟩

/-- C9: the `setProvider` installed on every client by `createAlchemyWeb3`
always throws — its message directing the caller to `setWriteProvider()` —
and changes neither the read provider nor the write provider, for every
provider state and every argument. -/
theorem patchedSetProvider_always_throws (st : ClientProviders) (arg : JsValue) :
    patchedSetProvider st arg = (.error setProviderErrorMessage, st) ∧
      (patchedSetProvider st arg).2.readProvider = st.readProvider ∧
      (patchedSetProvider st arg).2.writeProvider = st.writeProvider ∧
      includesSubstr setProviderErrorMessage "setWriteProvider()" = true :=
  ⟨rfl, rfl, rfl, rfl⟩

/-- C10: `processTokenBalanceResponse` preserves every field of the
response other than the entry list, preserves the count and order of
entries, returns entries with a null (or absent) `tokenBalance` unchanged,
and for entries with a non-null `tokenBalance` changes only that field,
replacing it by its uint256 decoding. -/
theorem processTokenBalanceResponse_frame (decodeUint256 : String → String)
    (r : TokenBalancesResponse) :
    (processTokenBalanceResponse decodeUint256 r).otherFields = r.otherFields ∧
      (processTokenBalanceResponse decodeUint256 r).tokenBalances.length =
        r.tokenBalances.length ∧
      ∀ i (hi : i < r.tokenBalances.length)
        (hi2 : i < (processTokenBalanceResponse decodeUint256 r).tokenBalances.length),
        ((r.tokenBalances.get ⟨i, hi⟩).tokenBalance = none →
          (processTokenBalanceResponse decodeUint256 r).tokenBalances.get ⟨i, hi2⟩ =
            r.tokenBalances.get ⟨i, hi⟩) ∧
        (∀ tb, (r.tokenBalances.get ⟨i, hi⟩).tokenBalance = some tb →
          ((processTokenBalanceResponse decodeUint256 r).tokenBalances.get
              ⟨i, hi2⟩).tokenBalance = some (decodeUint256 tb) ∧
            ((processTokenBalanceResponse decodeUint256 r).tokenBalances.get
              ⟨i, hi2⟩).otherFields = (r.tokenBalances.get ⟨i, hi⟩).otherFields) := by
  refine ⟨rfl, by simp [processTokenBalanceResponse], ?_⟩
  intro i hi hi2
  have hget : (processTokenBalanceResponse decodeUint256 r).tokenBalances.get
      ⟨i, hi2⟩ =
      fixTokenBalance decodeUint256 (r.tokenBalances.get ⟨i, hi⟩) := by
    simp [processTokenBalanceResponse, List.get_eq_getElem, List.getElem_map]
  constructor
  · intro hnone
    rw [hget]
    unfold fixTokenBalance
    rw [hnone]
  · intro tb htb
    rw [hget]
    unfold fixTokenBalance
    rw [htb]
    exact ⟨rfl, rfl⟩

/-- C10 witness: on a concrete two-entry response, the response-level extra
field survives, the entry count is preserved, the non-null entry is decoded
in place, and the null entry is returned unchanged. -/
theorem processTokenBalanceResponse_frame_witness :
    (processTokenBalanceResponse exDecode exTokenResponse).otherFields =
        exTokenResponse.otherFields ∧
      (processTokenBalanceResponse exDecode exTokenResponse).tokenBalances.length =
        exTokenResponse.tokenBalances.length ∧
      ((processTokenBalanceResponse exDecode exTokenResponse).tokenBalances.get
        ⟨0, by decide⟩).tokenBalance = some "0x0a:decoded" ∧
      (processTokenBalanceResponse exDecode exTokenResponse).tokenBalances.get
        ⟨1, by decide⟩ = exTokenResponse.tokenBalances.get ⟨1, by decide⟩ := by
  have h := processTokenBalanceResponse_frame exDecode exTokenResponse
  refine ⟨h.1, h.2.1, ?_, ?_⟩
  · have := ((h.2.2 0 (by decide) (by decide)).2 "0x0a" rfl).1
    simpa [exDecode] using this
  · exact (h.2.2 1 (by decide) (by decide)).1 rfl

end AlchemyWeb3
